import Mathlib

/-!
Shallow embedding of the tool-sync core: the TOML configuration decoder
(src/config/toml.rs), the configuration schema (src/config/schema.rs), the
builtin tool registry (src/sync/db.rs), the archive extractor
(src/sync/archive.rs) and the progress-bar sizing logic
(src/sync/progress.rs), together with theorems settling the specification
claims about them.

Strings are modelled as Lean strings, filesystem paths as lists of path
components (one list element per component pushed onto a Rust PathBuf),
and external effects (opening files, unpacking a tar stream, reading a zip
index, shell expansion, directory existence) as explicit oracle parameters
recording whether each step succeeds.
-/

namespace ToolSync

/-! ## TOML value model

Models the untyped toml::Value tree that src/config/toml.rs decodes.
Tables are association lists of key/value pairs; the toml parser never
produces duplicate keys inside one table.
-/

inductive Value where
  | str : String → Value
  | int : Int → Value
  | boolean : Bool → Value
  | array : List Value → Value
  | table : List (String × Value) → Value

/-- Association-list lookup by key, first match wins; models Map::get. -/
def lookupA {α : Type} : List (String × α) → String → Option α
  | [], _ => none
  | (k, v) :: rest, q => if k = q then some v else lookupA rest q

/-- Models toml::Value::as_str. -/
def Value.as_str : Value → Option String
  | .str s => some s
  | _ => none

/-- Models toml::Value::as_table. -/
def Value.as_table : Value → Option (List (String × Value))
  | .table t => some t
  | _ => none

/-- Models toml::Value::get with a string index: a key lookup that succeeds
only on tables. -/
def Value.get (v : Value) (k : String) : Option Value :=
  (v.as_table).bind (fun t => lookupA t k)

/-- Models Value::is_table-style classification used to state claims about
which top-level keys become tools. -/
def Value.isTable : Value → Bool
  | .table _ => true
  | _ => false

/-! ## Configuration model (src/config/schema.rs)

AssetName lives in model/asset_name.rs, outside the given sources; its three
optional string fields are fixed by the spec (AssetDescriptor) and by every
construction site in src/config/toml.rs and src/sync/db.rs.
-/

/-- Modelled from the spec: AssetDescriptor, three independent optional
string fields naming the per-platform asset fragment (model/asset_name.rs,
not under the given sources; field set confirmed by all construction
sites). -/
structure AssetName where
  linux : Option String
  macos : Option String
  windows : Option String
deriving DecidableEq

/-- Additional details telling how to download a tool (schema.rs). -/
structure ConfigAsset where
  owner : Option String
  repo : Option String
  exe_name : Option String
  asset_name : AssetName
  tag : Option String
deriving DecidableEq

/-- Global configuration: store directory plus a BTreeMap from tool name to
ConfigAsset. The BTreeMap is modelled as a key-sorted association list. -/
structure Config where
  store_directory : String
  tools : List (String × ConfigAsset)
deriving DecidableEq

/-- Lexicographic strict order on character lists by code point; on
Unicode strings this coincides with the byte order Rust uses for String
keys, since UTF-8 preserves code-point order. -/
def lexLt : List Char → List Char → Bool
  | _, [] => false
  | [], _ :: _ => true
  | a :: as, b :: bs =>
    if a.toNat < b.toNat then true
    else if b.toNat < a.toNat then false
    else lexLt as bs

/-- Key order of the BTreeMap model. -/
def strLt (a : String) (b : String) : Bool :=
  lexLt a.data b.data

/-- Models BTreeMap::insert on a key-sorted association list: insert in key
order, overwriting an existing binding of the same key. -/
def mapInsert {α : Type} (k : String) (v : α) : List (String × α) → List (String × α)
  | [] => [(k, v)]
  | (k0, v0) :: rest =>
    if strLt k k0 then (k, v) :: (k0, v0) :: rest
    else if k = k0 then (k, v) :: rest
    else (k0, v0) :: mapInsert k v rest

/-! ## TOML decoding (src/config/toml.rs) -/

/-- Error type of the TOML layer. The source names the first constructor
IO; it is renamed here. The Parse payload (toml::de::Error) is modelled as
a string. -/
inductive TomlError where
  | ioError : String → TomlError
  | Parse : String → TomlError
  | Decode : TomlError
deriving DecidableEq

/-- Models str_by_key: table.get(key).and_then(as_str).map(String::from). -/
def str_by_key (tb : List (String × Value)) (key : String) : Option String :=
  (lookupA tb key).bind Value.as_str

/-- Models decode_asset_name: the asset_name sub-table decoded field by
field, or all-None when the sub-table is absent or not a table. -/
def decode_asset_name (tb : List (String × Value)) : AssetName :=
  match (lookupA tb "asset_name").bind Value.as_table with
  | none => { linux := none, macos := none, windows := none }
  | some t =>
    { linux := str_by_key t "linux"
      macos := str_by_key t "macos"
      windows := str_by_key t "windows" }

/-- Models decode_config_asset: each field decoded permissively. -/
def decode_config_asset (tb : List (String × Value)) : ConfigAsset :=
  { owner := str_by_key tb "owner"
    repo := str_by_key tb "repo"
    exe_name := str_by_key tb "exe_name"
    asset_name := decode_asset_name tb
    tag := str_by_key tb "tag" }

/-- Body of the for-loop in decode_config: a top-level key whose value is a
table is inserted into the tools map; every other value is skipped. -/
def insertTools (acc : List (String × ConfigAsset)) (kv : String × Value) :
    List (String × ConfigAsset) :=
  match kv.2 with
  | Value.table t => mapInsert kv.1 (decode_config_asset t) acc
  | _ => acc

/-- Models decode_config: requires a direct top-level string
store_directory, then folds every table-valued top-level key into the tools
map. -/
def decode_config (toml : Value) : Option Config := do
  let sd ← toml.get "store_directory"
  let str_store_directory ← sd.as_str
  let t ← toml.as_table
  let tools := t.foldl insertTools []
  some { store_directory := str_store_directory, tools := tools }

/-- Models parse_string with the TOML syntax parser (out of scope)
abstracted into the argument: a parse failure is wrapped in Parse, a decode
failure in Decode. -/
def parse_string (parsed : Except String Value) : Except TomlError Config :=
  match parsed with
  | Except.error e => Except.error (TomlError.Parse e)
  | Except.ok toml =>
    match decode_config toml with
    | none => Except.error TomlError.Decode
    | some config => Except.ok config

/-! ## Store directory validation (src/config/schema.rs)

shellexpand::full and Path::is_dir are external effects, passed in as
oracles; err::abort_with (which terminates the process) is modelled as the
error branch of Except.
-/

/-- Models Config::ensure_store_directory: shell-expand the configured
store directory, abort when expansion fails or the expanded path is not an
existing directory, and otherwise return the expanded path. -/
def ensure_store_directory (expand : String → Except String String)
    (is_dir : String → Bool) (cfg : Config) : Except String String :=
  match expand cfg.store_directory with
  | Except.error e => Except.error e
  | Except.ok store_directory =>
    if is_dir store_directory then Except.ok store_directory
    else Except.error
      ("Specified directory for storing tools doesn't exist: " ++ store_directory)

/-! ## Builtin registry (src/sync/db.rs)

ToolInfo and ToolInfoTag live in model/tool.rs, outside the given sources;
their shape is fixed by the spec (BuiltinEntry: owner, repo, executable
name, per-platform asset fragment, release-tag policy) and by every
construction site in src/sync/db.rs.
-/

/-- Modelled from the spec: the release-tag policy of model/tool.rs (not
under the given sources) — either the latest release or a specific tag;
src/sync/db.rs only ever uses Latest. -/
inductive ToolInfoTag where
  | Latest : ToolInfoTag
  | Specific : String → ToolInfoTag
deriving DecidableEq

/-- Modelled from the spec: BuiltinEntry of model/tool.rs (not under the
given sources); the field set is confirmed by every construction site in
src/sync/db.rs. -/
structure ToolInfo where
  owner : String
  repo : String
  exe_name : String
  asset_name : AssetName
  tag : ToolInfoTag
deriving DecidableEq

/-- Models lookup_tool: the hardcoded database of known tools. The Rust
match on string literals is written as the equivalent chain of string
comparisons. -/
def lookup_tool (tool_name : String) : Option ToolInfo :=
  if tool_name = "bat" then some
    { owner := "sharkdp", repo := "bat", exe_name := "bat"
      asset_name :=
        { linux := some "x86_64-unknown-linux-musl"
          macos := some "x86_64-apple-darwin"
          windows := some "x86_64-pc-windows-msvc" }
      tag := ToolInfoTag.Latest }
  else if tool_name = "difftastic" then some
    { owner := "Wilfred", repo := "difftastic", exe_name := "difft"
      asset_name :=
        { linux := some "x86_64-unknown-linux-gnu"
          macos := some "x86_64-apple-darwin"
          windows := some "x86_64-pc-windows-msvc" }
      tag := ToolInfoTag.Latest }
  else if tool_name = "exa" then some
    { owner := "ogham", repo := "exa", exe_name := "exa"
      asset_name :=
        { linux := some "linux-x86_64-musl"
          macos := some "macos-x86_64"
          windows := none }
      tag := ToolInfoTag.Latest }
  else if tool_name = "fd" then some
    { owner := "sharkdp", repo := "fd", exe_name := "fd"
      asset_name :=
        { linux := some "x86_64-unknown-linux-musl"
          macos := some "x86_64-apple-darwin"
          windows := some "x86_64-pc-windows-msvc" }
      tag := ToolInfoTag.Latest }
  else if tool_name = "ripgrep" then some
    { owner := "BurntSushi", repo := "ripgrep", exe_name := "rg"
      asset_name :=
        { linux := some "unknown-linux-musl"
          macos := some "apple-darwin"
          windows := some "x86_64-pc-windows-msvc" }
      tag := ToolInfoTag.Latest }
  else if tool_name = "tool-sync" then some
    { owner := "chshersh", repo := "tool-sync", exe_name := "tool"
      asset_name :=
        { linux := some "x86_64-unknown-linux-gnu"
          macos := some "x86_64-apple-darwin"
          windows := some "x86_64-pc-windows-msvc" }
      tag := ToolInfoTag.Latest }
  else none

/-! ## Archive extraction (src/sync/archive.rs)

Paths are lists of components (successive PathBuf::push calls); I/O errors
carry a message. The filesystem effects of unpacking are abstracted into
oracle records: a TarState says whether opening the archive file and
unpacking the gzip-compressed tar stream succeed (entries records the
contents of the archive tree, which the result path never consults); a
ZipState says whether opening the file and reading the zip index succeed,
which entry names the zip contains, and whether creating and filling the
output file succeed. unpack_zip additionally threads the list of files
created on disk, so that claims about the filesystem being left unchanged
can be stated.
-/

/-- Models std::io::Error as a message. -/
structure IoError where
  msg : String
deriving DecidableEq

/-- Models strip_suffix on strings: the remainder when the suffix matches,
and nothing otherwise. Stated over the character lists underlying the
strings so that it evaluates by kernel reduction. -/
def strip_suffix (s : String) (suffix : String) : Option String :=
  if suffix.data.isSuffixOf s.data then
    some (String.mk (s.data.take (s.data.length - suffix.data.length)))
  else none

/-- Archive type that specifies how to unpack an asset, each variant
carrying the base name obtained by stripping the recognized suffix. -/
inductive ArchiveType where
  | Zip : String → ArchiveType
  | TarGz : String → ArchiveType
deriving DecidableEq

/-- Models the Archive value bound to one extraction operation. -/
structure Archive where
  archive_path : String
  tmp_dir : String
  exe_name : String
  archive_type : ArchiveType
deriving DecidableEq

/-- Models Archive::from (from is a Lean keyword): classify the asset name
by stripping .tar.gz first and .zip second. -/
def Archive.from_asset (archive_path : String) (tmp_dir : String)
    (exe_name : String) (asset_name : String) : Option Archive :=
  match strip_suffix asset_name ".tar.gz" with
  | some tar_gz_dir => some
      { archive_path := archive_path, tmp_dir := tmp_dir
        exe_name := exe_name, archive_type := ArchiveType.TarGz tar_gz_dir }
  | none =>
    match strip_suffix asset_name ".zip" with
    | some zip_dir => some
        { archive_path := archive_path, tmp_dir := tmp_dir
          exe_name := exe_name, archive_type := ArchiveType.Zip zip_dir }
    | none => none

/-- Oracle for the effects of unpack_tar: whether File::open succeeds,
whether tar::Archive::unpack succeeds, and the contents of the archive
tree (paths of the entries it would extract). -/
structure TarState where
  openOk : Bool
  unpackOk : Bool
  entries : List (List String)
deriving DecidableEq

/-- Models unpack_tar: open the archive file, unpack the whole tree into
tmp_dir, then return the path tmp_dir/asset_name/exe_name built purely
from its string arguments. -/
def unpack_tar (st : TarState) (tar_path : String) (tmp_dir : String)
    (exe_name : String) (asset_name : String) : Except IoError (List String) :=
  if st.openOk = false then Except.error { msg := "cannot open " ++ tar_path }
  else if st.unpackOk = false then Except.error { msg := "cannot unpack archive" }
  else Except.ok [tmp_dir, asset_name, exe_name]

/-- Oracle for the effects of unpack_zip: whether File::open and reading
the zip index succeed, which entry names the archive contains, and whether
creating the output file and copying the bytes succeed. -/
structure ZipState where
  openOk : Bool
  indexOk : Bool
  entries : List String
  createOk : Bool
  copyOk : Bool
deriving DecidableEq

/-- Models unpack_zip, threading the list of files present on disk: open
the zip, read its index, look up the entry bin/exe_name, then create the
output file tmp_dir/exe_name and copy the entry into it. The asset_name
argument is accepted and unused, as in the source. -/
def unpack_zip (st : ZipState) (fs : List (List String)) (zip_path : String)
    (tmp_dir : String) (exe_name : String) (asset_name : String) :
    Except IoError (List String) × List (List String) :=
  if st.openOk = false then (Except.error { msg := "cannot open " ++ zip_path }, fs)
  else if st.indexOk = false then (Except.error { msg := "invalid zip archive" }, fs)
  else
    let exe_path := "bin/" ++ exe_name
    if exe_path ∈ st.entries then
      let tool_path := [tmp_dir, exe_name]
      if st.createOk = false then (Except.error { msg := "cannot create output file" }, fs)
      else if st.copyOk = false then (Except.error { msg := "copy failed" }, tool_path :: fs)
      else (Except.ok tool_path, tool_path :: fs)
    else (Except.error { msg := "file not found in archive: " ++ exe_path }, fs)

/-! ## Progress sizing (src/sync/progress.rs)

Only the column-width computation of SyncProgress::new is modelled; the
MultiProgress display handle is external. Iterator::max is modelled by
listMaxNat; the unwrap on the tools maximum (which panics on an empty
vector) is modelled by returning none.
-/

/-- Floor for the tag column width; tags like v0.10.10 are already 8. -/
def MIN_TAG_SIZE : Nat := 8

/-- One step of Iterator::max: fold the running maximum. -/
def maxStep (acc : Option Nat) (x : Nat) : Option Nat :=
  match acc with
  | none => some x
  | some m => some (Nat.max m x)

/-- Models Iterator::max over a list of numbers. -/
def listMaxNat (l : List Nat) : Option Nat :=
  l.foldl maxStep none

/-- Column widths computed by SyncProgress::new. -/
structure SyncProgress where
  max_tool_size : Nat
  max_tag_size : Nat
deriving DecidableEq

/-- Models SyncProgress::new: the tool width is the maximum tool-name
length (unwrap, modelled as none on an empty tools vector) and the tag
width is the maximum over tags of the tag length floored at MIN_TAG_SIZE,
defaulting to MIN_TAG_SIZE when there are no tags. -/
def SyncProgress.new (tools : List String) (tags : List String) :
    Option SyncProgress :=
  match listMaxNat (tools.map String.length) with
  | none => none
  | some max_tool_size =>
    let max_tag_size :=
      (listMaxNat (tags.map (fun tag => Nat.max tag.length MIN_TAG_SIZE))).getD
        MIN_TAG_SIZE
    some { max_tool_size := max_tool_size, max_tag_size := max_tag_size }

/-! ## Helper lemmas about the sorted-map model -/

theorem lookupA_mapInsert {α : Type} (m : List (String × α)) (k : String)
    (v : α) (q : String) :
    lookupA (mapInsert k v m) q = if k = q then some v else lookupA m q := by
  induction m with
  | nil =>
    by_cases hq : k = q
    · subst hq; simp [mapInsert, lookupA]
    · simp [mapInsert, lookupA, hq]
  | cons hd tl ih =>
    obtain ⟨k0, v0⟩ := hd
    by_cases hlt : strLt k k0 = true
    · by_cases hq : k = q
      · subst hq; simp [mapInsert, hlt, lookupA]
      · simp [mapInsert, hlt, lookupA, hq]
    · by_cases heq : k = k0
      · subst heq
        by_cases hq : k = q
        · subst hq; simp [mapInsert, hlt, lookupA]
        · simp [mapInsert, hlt, lookupA, hq]
      · by_cases h0 : k0 = q
        · subst h0
          simp [mapInsert, hlt, heq, lookupA]
        · simp [mapInsert, hlt, heq, lookupA, h0, ih]

theorem mem_keys_mapInsert {α : Type} (m : List (String × α)) (k : String)
    (v : α) (q : String) :
    q ∈ (mapInsert k v m).map Prod.fst ↔ q = k ∨ q ∈ m.map Prod.fst := by
  induction m with
  | nil => simp [mapInsert]
  | cons hd tl ih =>
    obtain ⟨k0, v0⟩ := hd
    by_cases hlt : strLt k k0 = true
    · simp [mapInsert, hlt]
      try tauto
    · by_cases heq : k = k0
      · subst heq
        simp [mapInsert, hlt]
        try tauto
      · simp [mapInsert, hlt, heq, ih]
        try tauto

theorem length_mapInsert_notMem {α : Type} (m : List (String × α))
    (k : String) (v : α) (h : k ∉ m.map Prod.fst) :
    (mapInsert k v m).length = m.length + 1 := by
  induction m with
  | nil => simp [mapInsert]
  | cons hd tl ih =>
    obtain ⟨k0, v0⟩ := hd
    simp only [List.map_cons, List.mem_cons] at h
    push_neg at h
    by_cases hlt : strLt k k0 = true
    · simp [mapInsert, hlt]
    · simp [mapInsert, hlt, h.1, ih h.2]

theorem foldl_insertTools_lookup_notMem (es : List (String × Value))
    (acc : List (String × ConfigAsset)) (q : String)
    (h : q ∉ es.map Prod.fst) :
    lookupA (es.foldl insertTools acc) q = lookupA acc q := by
  induction es generalizing acc with
  | nil => rfl
  | cons hd tl ih =>
    obtain ⟨k0, v0⟩ := hd
    simp only [List.map_cons, List.mem_cons] at h
    push_neg at h
    obtain ⟨hqk, hqtl⟩ := h
    have hk0 : ¬ (k0 = q) := fun hh => hqk hh.symm
    rw [List.foldl_cons, ih _ hqtl]
    cases v0 <;> simp [insertTools, lookupA_mapInsert, hk0]

theorem foldl_insertTools_lookup_mem (es : List (String × Value))
    (acc : List (String × ConfigAsset)) (k : String)
    (tb : List (String × Value)) (hnd : (es.map Prod.fst).Nodup)
    (hmem : (k, Value.table tb) ∈ es) :
    lookupA (es.foldl insertTools acc) k = some (decode_config_asset tb) := by
  induction es generalizing acc with
  | nil => cases hmem
  | cons hd tl ih =>
    obtain ⟨k0, v0⟩ := hd
    simp only [List.map_cons, List.nodup_cons] at hnd
    rcases List.mem_cons.mp hmem with hhd | htl
    · injection hhd with hk hv
      subst hk
      subst hv
      rw [List.foldl_cons, foldl_insertTools_lookup_notMem tl _ k hnd.1]
      simp [insertTools, lookupA_mapInsert]
    · rw [List.foldl_cons]
      exact ih _ hnd.2 htl

theorem exists_table_mem_cons (k0 : String) (v0 : Value)
    (tl : List (String × Value)) (q : String) (hnt : v0.isTable = false) :
    (∃ tb, (q, Value.table tb) ∈ (k0, v0) :: tl)
      ↔ (∃ tb, (q, Value.table tb) ∈ tl) := by
  constructor
  · rintro ⟨tb, htb⟩
    rcases List.mem_cons.mp htb with heq | h
    · exfalso
      injection heq with h1 h2
      subst h2
      simp [Value.isTable] at hnt
    · exact ⟨tb, h⟩
  · rintro ⟨tb, htb⟩
    exact ⟨tb, List.mem_cons_of_mem _ htb⟩

theorem mem_keys_foldl_insertTools (es : List (String × Value))
    (acc : List (String × ConfigAsset)) (q : String) :
    q ∈ (es.foldl insertTools acc).map Prod.fst ↔
      q ∈ acc.map Prod.fst ∨ ∃ tb, (q, Value.table tb) ∈ es := by
  induction es generalizing acc with
  | nil => simp
  | cons hd tl ih =>
    obtain ⟨k0, v0⟩ := hd
    rw [List.foldl_cons, ih]
    cases v0 with
    | table t0 =>
      simp only [insertTools, mem_keys_mapInsert, List.mem_cons, Prod.mk.injEq,
        Value.table.injEq]
      constructor
      · rintro (h | h)
        · rcases h with h | h
          · exact Or.inr ⟨t0, Or.inl ⟨h, rfl⟩⟩
          · exact Or.inl h
        · rcases h with ⟨tb, htb⟩
          exact Or.inr ⟨tb, Or.inr htb⟩
      · rintro (h | h)
        · exact Or.inl (Or.inr h)
        · rcases h with ⟨tb, htb | htb⟩
          · exact Or.inl (Or.inl htb.1)
          · exact Or.inr ⟨tb, htb⟩
    | str s =>
      rw [exists_table_mem_cons k0 (Value.str s) tl q rfl]
      simp [insertTools]
    | int n =>
      rw [exists_table_mem_cons k0 (Value.int n) tl q rfl]
      simp [insertTools]
    | boolean b =>
      rw [exists_table_mem_cons k0 (Value.boolean b) tl q rfl]
      simp [insertTools]
    | array xs =>
      rw [exists_table_mem_cons k0 (Value.array xs) tl q rfl]
      simp [insertTools]

theorem length_foldl_insertTools (es : List (String × Value))
    (acc : List (String × ConfigAsset)) (hnd : (es.map Prod.fst).Nodup)
    (hdisj : ∀ q ∈ es.map Prod.fst, q ∉ acc.map Prod.fst) :
    (es.foldl insertTools acc).length
      = acc.length + es.countP (fun kv => kv.2.isTable) := by
  induction es generalizing acc with
  | nil => simp
  | cons hd tl ih =>
    obtain ⟨k0, v0⟩ := hd
    simp only [List.map_cons, List.nodup_cons] at hnd
    have hk0 : k0 ∉ acc.map Prod.fst := hdisj k0 (List.mem_cons_self _ _)
    have hdisjtl : ∀ q ∈ tl.map Prod.fst,
        q ∉ (insertTools acc (k0, v0)).map Prod.fst := by
      intro q hq
      have hqk : q ≠ k0 := fun h => hnd.1 (h ▸ hq)
      have hqacc : q ∉ acc.map Prod.fst := hdisj q (List.mem_cons_of_mem _ hq)
      cases v0 with
      | table t0 =>
        simp only [insertTools, mem_keys_mapInsert]
        rintro (h | h)
        · exact hqk h
        · exact hqacc h
      | str s => exact hqacc
      | int n => exact hqacc
      | boolean b => exact hqacc
      | array xs => exact hqacc
    rw [List.foldl_cons, ih _ hnd.2 hdisjtl, List.countP_cons]
    cases v0 with
    | table t0 =>
      have hlen : (insertTools acc (k0, Value.table t0)).length = acc.length + 1 :=
        length_mapInsert_notMem acc k0 (decode_config_asset t0) hk0
      rw [hlen]
      simp [Value.isTable]
      omega
    | str s => simp [insertTools, Value.isTable]
    | int n => simp [insertTools, Value.isTable]
    | boolean b => simp [insertTools, Value.isTable]
    | array xs => simp [insertTools, Value.isTable]

/-! ## Helper lemmas about Iterator::max -/

theorem foldl_maxStep_some (l : List Nat) (a : Nat) :
    ∃ m, l.foldl maxStep (some a) = some m ∧ a ≤ m ∧ (∀ x ∈ l, x ≤ m)
      ∧ (m = a ∨ m ∈ l) := by
  induction l generalizing a with
  | nil => exact ⟨a, rfl, Nat.le_refl a, by simp, Or.inl rfl⟩
  | cons x xs ih =>
    obtain ⟨m, hm, ham, hall, hmem⟩ := ih (Nat.max a x)
    refine ⟨m, hm, Nat.le_trans (Nat.le_max_left a x) ham, ?_, ?_⟩
    · intro y hy
      rcases List.mem_cons.mp hy with rfl | hy
      · exact Nat.le_trans (Nat.le_max_right a y) ham
      · exact hall y hy
    · rcases hmem with rfl | hmem
      · rcases Nat.le_total a x with h | h
        · exact Or.inr (by simp [Nat.max_eq_right h])
        · exact Or.inl (Nat.max_eq_left h)
      · exact Or.inr (List.mem_cons_of_mem _ hmem)

theorem listMaxNat_cons (x : Nat) (xs : List Nat) :
    ∃ m, listMaxNat (x :: xs) = some m ∧ x ≤ m ∧ (∀ y ∈ x :: xs, y ≤ m)
      ∧ m ∈ x :: xs := by
  obtain ⟨m, hm, ham, hall, hmem⟩ := foldl_maxStep_some xs x
  refine ⟨m, hm, ham, ?_, ?_⟩
  · intro y hy
    rcases List.mem_cons.mp hy with rfl | hy
    · exact ham
    · exact hall y hy
  · rcases hmem with rfl | hmem
    · exact List.mem_cons_self _ _
    · exact List.mem_cons_of_mem _ hmem

theorem listMaxNat_spec (l : List Nat) (m : Nat) (h : listMaxNat l = some m) :
    (∀ x ∈ l, x ≤ m) ∧ m ∈ l := by
  cases l with
  | nil => cases h
  | cons x xs =>
    obtain ⟨m2, hm2, _, hall, hmem⟩ := listMaxNat_cons x xs
    rw [h] at hm2
    cases hm2
    exact ⟨hall, hmem⟩

/-! ## Claim theorems -/

/-- Claim C1: Archive::from classifies purely by the asset name suffix:
a name ending in .tar.gz yields a tar-kind archive whose base is the name
with those 7 characters stripped; otherwise a name ending in .zip yields a
zip-kind archive with the 4-character suffix stripped; any other name
yields none. Concretely, foo.tar.gz is tar-kind with base foo, foo.zip is
zip-kind with base foo, and foo.rar yields nothing. -/
theorem archive_from_classification :
    (∀ p t e n, (".tar.gz").data.isSuffixOf n.data = true →
      Archive.from_asset p t e n
        = some ⟨p, t, e, ArchiveType.TarGz (String.mk (n.data.take (n.data.length - 7)))⟩)
    ∧ (∀ p t e n, (".tar.gz").data.isSuffixOf n.data = false →
        (".zip").data.isSuffixOf n.data = true →
      Archive.from_asset p t e n
        = some ⟨p, t, e, ArchiveType.Zip (String.mk (n.data.take (n.data.length - 4)))⟩)
    ∧ (∀ p t e n, (".tar.gz").data.isSuffixOf n.data = false →
        (".zip").data.isSuffixOf n.data = false →
      Archive.from_asset p t e n = none)
    ∧ Archive.from_asset "dl" "tmp" "x" "foo.tar.gz"
        = some ⟨"dl", "tmp", "x", ArchiveType.TarGz "foo"⟩
    ∧ Archive.from_asset "dl" "tmp" "x" "foo.zip"
        = some ⟨"dl", "tmp", "x", ArchiveType.Zip "foo"⟩
    ∧ Archive.from_asset "dl" "tmp" "x" "foo.rar" = none := by
  refine ⟨?_, ?_, ?_, by decide, by decide, by decide⟩
  · intro p t e n h
    simp [Archive.from_asset, strip_suffix, h,
      (show (".tar.gz" : String).data.length = 7 by decide)]
  · intro p t e n h1 h2
    simp [Archive.from_asset, strip_suffix, h1, h2,
      (show (".zip" : String).data.length = 4 by decide)]
  · intro p t e n h1 h2
    simp [Archive.from_asset, strip_suffix, h1, h2]

/-- Witness for C1 at a concrete input. -/
theorem archive_from_classification_witness :
    (".tar.gz").data.isSuffixOf ("x.tar.gz").data = true
    ∧ Archive.from_asset "p" "t" "e" "x.tar.gz"
        = some ⟨"p", "t", "e", ArchiveType.TarGz
            (String.mk (("x.tar.gz").data.take (("x.tar.gz").data.length - 7)))⟩ :=
  ⟨by decide, archive_from_classification.1 "p" "t" "e" "x.tar.gz" (by decide)⟩

/-- Claim C2: whenever opening the archive and unpacking the container tree
into the temporary directory succeed, unpack_tar returns exactly the path
tmp_dir/asset_name/exe_name, built only from those three string arguments;
the result does not depend on the entries of the archive and no check
that the path exists is performed. -/
theorem unpack_tar_result (st : TarState) (p t e b : String)
    (hopen : st.openOk = true) (hunpack : st.unpackOk = true) :
    unpack_tar st p t e b = Except.ok [t, b, e] := by
  simp [unpack_tar, hopen, hunpack]

/-- Witness for C2 at a concrete input whose archive contents do not hold
the expected file at all. -/
theorem unpack_tar_result_witness :
    (TarState.mk true true [["somewhere", "else"]]).openOk = true
    ∧ (TarState.mk true true [["somewhere", "else"]]).unpackOk = true
    ∧ unpack_tar (TarState.mk true true [["somewhere", "else"]]) "dl.tar.gz" "tmp" "rg" "base"
        = Except.ok ["tmp", "base", "rg"] :=
  ⟨rfl, rfl, unpack_tar_result (TarState.mk true true [["somewhere", "else"]])
    "dl.tar.gz" "tmp" "rg" "base" rfl rfl⟩

/-- Claim C3: when the zip archive has no entry named bin/exe_name,
unpack_zip fails with an I/O-class error and leaves the filesystem
unchanged (the entry lookup precedes creation of the output file); on
success the returned path is exactly tmp_dir/exe_name. -/
theorem unpack_zip_result :
    (∀ st fs zp t e a, ("bin/" ++ e) ∉ st.entries →
      (∃ err, (unpack_zip st fs zp t e a).1 = Except.error err)
        ∧ (unpack_zip st fs zp t e a).2 = fs)
    ∧ (∀ st fs zp t e a p, (unpack_zip st fs zp t e a).1 = Except.ok p →
        p = [t, e]) := by
  constructor
  · intro st fs zp t e a hmem
    by_cases h1 : st.openOk = false
    · refine ⟨⟨IoError.mk ("cannot open " ++ zp), ?_⟩, ?_⟩ <;>
        simp [unpack_zip, h1]
    · by_cases h2 : st.indexOk = false
      · refine ⟨⟨IoError.mk "invalid zip archive", ?_⟩, ?_⟩ <;>
          simp [unpack_zip, h1, h2]
      · refine ⟨⟨IoError.mk ("file not found in archive: " ++ ("bin/" ++ e)), ?_⟩, ?_⟩ <;>
          simp [unpack_zip, h1, h2, hmem]
  · intro st fs zp t e a p hp
    by_cases h1 : st.openOk = false
    · simp [unpack_zip, h1] at hp
    · by_cases h2 : st.indexOk = false
      · simp [unpack_zip, h1, h2] at hp
      · by_cases h3 : ("bin/" ++ e) ∈ st.entries
        · by_cases h4 : st.createOk = false
          · simp [unpack_zip, h1, h2, h3, h4] at hp
          · by_cases h5 : st.copyOk = false
            · simp [unpack_zip, h1, h2, h3, h4, h5] at hp
            · simp [unpack_zip, h1, h2, h3, h4, h5] at hp
              exact hp.symm
        · simp [unpack_zip, h1, h2, h3] at hp

/-- Witness for C3 at a concrete zip lacking the bin entry. -/
theorem unpack_zip_result_witness :
    ("bin/" ++ "rg") ∉ (["bin/other", "readme.txt"] : List String)
    ∧ ((∃ err, (unpack_zip (ZipState.mk true true ["bin/other", "readme.txt"] true true)
          [] "dl.zip" "tmp" "rg" "base").1 = Except.error err)
      ∧ (unpack_zip (ZipState.mk true true ["bin/other", "readme.txt"] true true)
          [] "dl.zip" "tmp" "rg" "base").2 = []) :=
  ⟨by decide, unpack_zip_result.1
    (ZipState.mk true true ["bin/other", "readme.txt"] true true)
    [] "dl.zip" "tmp" "rg" "base" (by decide)⟩

/-- Claim C7: ensure_store_directory first shell-expands the configured
store directory and returns the expanded path exactly when the expanded
path is an existing directory; an expansion failure aborts with the
expansion error, and a non-directory expanded path aborts with a
descriptive message. -/
theorem ensure_store_directory_spec :
    (∀ ex isd cfg p, ensure_store_directory ex isd cfg = Except.ok p
       ↔ (ex cfg.store_directory = Except.ok p ∧ isd p = true))
    ∧ (∀ ex isd cfg e, ex cfg.store_directory = Except.error e →
        ensure_store_directory ex isd cfg = Except.error e)
    ∧ (∀ ex isd cfg p, ex cfg.store_directory = Except.ok p → isd p = false →
        ensure_store_directory ex isd cfg
          = Except.error
              ("Specified directory for storing tools doesn't exist: " ++ p)) := by
  refine ⟨?_, ?_, ?_⟩
  · intro ex isd cfg p
    cases hex : ex cfg.store_directory with
    | error e => simp [ensure_store_directory, hex]
    | ok q =>
      by_cases hd : isd q = true
      · simp only [ensure_store_directory, hex, if_pos hd, Except.ok.injEq]
        constructor
        · intro h
          subst h
          exact ⟨rfl, hd⟩
        · intro h
          exact h.1
      · simp only [ensure_store_directory, hex, if_neg hd]
        constructor
        · intro h
          cases h
        · rintro ⟨h1, h2⟩
          injection h1 with h1
          subst h1
          exact absurd h2 hd
  · intro ex isd cfg e he
    simp [ensure_store_directory, he]
  · intro ex isd cfg p hp hd
    simp [ensure_store_directory, hp, hd]

/-- Witness for C7: a failing expansion aborts with the expansion error. -/
theorem ensure_store_directory_spec_witness :
    (fun _ => (Except.error "unknown variable" : Except String String))
        ((Config.mk "~/store" []).store_directory) = Except.error "unknown variable"
    ∧ ensure_store_directory (fun _ => Except.error "unknown variable")
        (fun _ => true) (Config.mk "~/store" []) = Except.error "unknown variable" :=
  ⟨rfl, ensure_store_directory_spec.2.1 (fun _ => Except.error "unknown variable")
    (fun _ => true) (Config.mk "~/store" []) "unknown variable" rfl⟩

/-- Descriptor of bat in the builtin database. -/
def batInfo : ToolInfo :=
  ⟨"sharkdp", "bat", "bat",
    ⟨some "x86_64-unknown-linux-musl", some "x86_64-apple-darwin",
      some "x86_64-pc-windows-msvc"⟩, ToolInfoTag.Latest⟩

/-- Descriptor of difftastic in the builtin database. -/
def difftasticInfo : ToolInfo :=
  ⟨"Wilfred", "difftastic", "difft",
    ⟨some "x86_64-unknown-linux-gnu", some "x86_64-apple-darwin",
      some "x86_64-pc-windows-msvc"⟩, ToolInfoTag.Latest⟩

/-- Descriptor of exa in the builtin database; it has no Windows asset. -/
def exaInfo : ToolInfo :=
  ⟨"ogham", "exa", "exa",
    ⟨some "linux-x86_64-musl", some "macos-x86_64", none⟩, ToolInfoTag.Latest⟩

/-- Descriptor of fd in the builtin database. -/
def fdInfo : ToolInfo :=
  ⟨"sharkdp", "fd", "fd",
    ⟨some "x86_64-unknown-linux-musl", some "x86_64-apple-darwin",
      some "x86_64-pc-windows-msvc"⟩, ToolInfoTag.Latest⟩

/-- Descriptor of ripgrep in the builtin database. -/
def ripgrepInfo : ToolInfo :=
  ⟨"BurntSushi", "ripgrep", "rg",
    ⟨some "unknown-linux-musl", some "apple-darwin",
      some "x86_64-pc-windows-msvc"⟩, ToolInfoTag.Latest⟩

/-- Descriptor of tool-sync in the builtin database. -/
def toolSyncInfo : ToolInfo :=
  ⟨"chshersh", "tool-sync", "tool",
    ⟨some "x86_64-unknown-linux-gnu", some "x86_64-apple-darwin",
      some "x86_64-pc-windows-msvc"⟩, ToolInfoTag.Latest⟩

/-- Claim C8: lookup_tool is a pure function of the tool name over the
fixed compiled-in table: every name outside the six known tools returns
none, and each known tool returns its fully-specified descriptor. -/
theorem lookup_tool_spec :
    (∀ s, s ≠ "bat" → s ≠ "difftastic" → s ≠ "exa" → s ≠ "fd" →
        s ≠ "ripgrep" → s ≠ "tool-sync" → lookup_tool s = none)
    ∧ lookup_tool "bat" = some batInfo
    ∧ lookup_tool "difftastic" = some difftasticInfo
    ∧ lookup_tool "exa" = some exaInfo
    ∧ lookup_tool "fd" = some fdInfo
    ∧ lookup_tool "ripgrep" = some ripgrepInfo
    ∧ lookup_tool "tool-sync" = some toolSyncInfo := by
  refine ⟨?_, by decide, by decide, by decide, by decide, by decide, by decide⟩
  intro s h1 h2 h3 h4 h5 h6
  simp [lookup_tool, h1, h2, h3, h4, h5, h6]

/-- Witness for C8 at the unknown name tokei (present only as a comment in
the source database). -/
theorem lookup_tool_spec_witness :
    ("tokei" : String) ≠ "bat" ∧ lookup_tool "tokei" = none :=
  ⟨by decide, lookup_tool_spec.1 "tokei" (by decide) (by decide) (by decide)
    (by decide) (by decide) (by decide)⟩

/-- Helper: on a table, decode_config is the direct store_directory lookup
chained with the tools fold. -/
theorem decode_config_table_eq (es : List (String × Value)) :
    decode_config (Value.table es)
      = (lookupA es "store_directory").bind (fun sd =>
          (sd.as_str).map (fun s => Config.mk s (es.foldl insertTools []))) := by
  cases h : lookupA es "store_directory" with
  | none => simp [decode_config, Value.get, Value.as_table, h]
  | some v =>
    cases v <;> simp [decode_config, Value.get, Value.as_table, Value.as_str, h]

/-- Claim C4: decoding fails exactly when the document has no direct
top-level string store_directory (in particular when it is not a table at
all, and on the empty document); on success the store directory is taken
from the document, never defaulted; the failure surfaces as the Decode
error, a constructor distinct from the Parse error. -/
theorem decode_config_store_directory_spec :
    (∀ toml, decode_config toml = none
       ↔ ((toml.get "store_directory").bind Value.as_str) = none)
    ∧ (∀ toml cfg, decode_config toml = some cfg →
        (toml.get "store_directory").bind Value.as_str = some cfg.store_directory)
    ∧ decode_config (Value.table []) = none
    ∧ (∀ e, parse_string (Except.error e) = Except.error (TomlError.Parse e))
    ∧ parse_string (Except.ok (Value.table [])) = Except.error TomlError.Decode
    ∧ parse_string (Except.ok (Value.table [("store_directory", Value.int 42)]))
        = Except.error TomlError.Decode := by
  refine ⟨?_, ?_, rfl, fun e => rfl, rfl, rfl⟩
  · intro toml
    cases toml with
    | str s => simp [decode_config, Value.get, Value.as_table]
    | int n => simp [decode_config, Value.get, Value.as_table]
    | boolean b => simp [decode_config, Value.get, Value.as_table]
    | array xs => simp [decode_config, Value.get, Value.as_table]
    | table es =>
      rw [decode_config_table_eq]
      cases h : lookupA es "store_directory" with
      | none => simp [Value.get, Value.as_table, h]
      | some v =>
        cases v <;> simp [Value.get, Value.as_table, Value.as_str, h]
  · intro toml cfg hcfg
    cases toml with
    | str s => simp [decode_config, Value.get, Value.as_table] at hcfg
    | int n => simp [decode_config, Value.get, Value.as_table] at hcfg
    | boolean b => simp [decode_config, Value.get, Value.as_table] at hcfg
    | array xs => simp [decode_config, Value.get, Value.as_table] at hcfg
    | table es =>
      rw [decode_config_table_eq] at hcfg
      cases h : lookupA es "store_directory" with
      | none => rw [h] at hcfg; simp at hcfg
      | some v =>
        rw [h] at hcfg
        cases v with
        | str s =>
          simp [Value.as_str] at hcfg
          subst hcfg
          simp [Value.get, Value.as_table, Value.as_str, h]
        | int n => simp [Value.as_str] at hcfg
        | boolean b => simp [Value.as_str] at hcfg
        | array xs => simp [Value.as_str] at hcfg
        | table t2 => simp [Value.as_str] at hcfg

/-- Helper: str_by_key returns a string exactly when the key maps directly
to a string value. -/
theorem str_by_key_iff (tb : List (String × Value)) (k : String) (s : String) :
    str_by_key tb k = some s ↔ lookupA tb k = some (Value.str s) := by
  cases h : lookupA tb k with
  | none => simp [str_by_key, h]
  | some v => cases v <;> simp [str_by_key, h, Value.as_str]

/-- Sample fully populated tool table, as in the single_full_tool test of
the source. -/
def sampleToolTable : List (String × Value) :=
  [("owner", Value.str "me"), ("repo", Value.str "some_repo"),
   ("exe_name", Value.str "rg"),
   ("asset_name", Value.table [("linux", Value.str "R2D2"),
     ("macos", Value.str "C3-PO"), ("windows", Value.str "IG-88")]),
   ("tag", Value.str "4.2.0")]

/-- Claim C5: each tool field (owner, repo, exe_name, tag, and the
asset_name sub-fields linux, macos, windows) decodes to its string value
exactly when the key is present with string type, and to none otherwise;
a wrong-typed field cannot fail the decode (decode_config_asset is total),
and a fully populated tool table round-trips every field unchanged. -/
theorem decode_config_asset_fields_spec :
    (∀ tb k s, str_by_key tb k = some s ↔ lookupA tb k = some (Value.str s))
    ∧ (∀ tb s, (decode_config_asset tb).owner = some s
        ↔ lookupA tb "owner" = some (Value.str s))
    ∧ (∀ tb s, (decode_config_asset tb).repo = some s
        ↔ lookupA tb "repo" = some (Value.str s))
    ∧ (∀ tb s, (decode_config_asset tb).exe_name = some s
        ↔ lookupA tb "exe_name" = some (Value.str s))
    ∧ (∀ tb s, (decode_config_asset tb).tag = some s
        ↔ lookupA tb "tag" = some (Value.str s))
    ∧ (∀ tb s, (decode_config_asset tb).asset_name.linux = some s
        ↔ ∃ sub, lookupA tb "asset_name" = some (Value.table sub)
            ∧ lookupA sub "linux" = some (Value.str s))
    ∧ (∀ tb s, (decode_config_asset tb).asset_name.macos = some s
        ↔ ∃ sub, lookupA tb "asset_name" = some (Value.table sub)
            ∧ lookupA sub "macos" = some (Value.str s))
    ∧ (∀ tb s, (decode_config_asset tb).asset_name.windows = some s
        ↔ ∃ sub, lookupA tb "asset_name" = some (Value.table sub)
            ∧ lookupA sub "windows" = some (Value.str s))
    ∧ decode_config_asset sampleToolTable
        = ConfigAsset.mk (some "me") (some "some_repo") (some "rg")
            (AssetName.mk (some "R2D2") (some "C3-PO") (some "IG-88"))
            (some "4.2.0")
    ∧ decode_config_asset [("owner", Value.int 42)]
        = ConfigAsset.mk none none none (AssetName.mk none none none) none
    ∧ decode_config (Value.table [("store_directory", Value.str "pancake"),
        ("ripgrep", Value.table sampleToolTable)])
      = some (Config.mk "pancake" [("ripgrep",
          ConfigAsset.mk (some "me") (some "some_repo") (some "rg")
            (AssetName.mk (some "R2D2") (some "C3-PO") (some "IG-88"))
            (some "4.2.0"))]) := by
  refine ⟨fun tb k s => str_by_key_iff tb k s,
    fun tb s => str_by_key_iff tb "owner" s,
    fun tb s => str_by_key_iff tb "repo" s,
    fun tb s => str_by_key_iff tb "exe_name" s,
    fun tb s => str_by_key_iff tb "tag" s,
    ?_, ?_, ?_, by decide, by decide, by decide⟩
  · intro tb s
    cases h : lookupA tb "asset_name" with
    | none => simp [decode_config_asset, decode_asset_name, h]
    | some v =>
      cases v <;>
        simp [decode_config_asset, decode_asset_name, h, Value.as_table,
          str_by_key_iff]
  · intro tb s
    cases h : lookupA tb "asset_name" with
    | none => simp [decode_config_asset, decode_asset_name, h]
    | some v =>
      cases v <;>
        simp [decode_config_asset, decode_asset_name, h, Value.as_table,
          str_by_key_iff]
  · intro tb s
    cases h : lookupA tb "asset_name" with
    | none => simp [decode_config_asset, decode_asset_name, h]
    | some v =>
      cases v <;>
        simp [decode_config_asset, decode_asset_name, h, Value.as_table,
          str_by_key_iff]

/-- Claim C6: a successfully decoding document yields exactly one tools
entry per table-valued top-level key (keyed by the tool name, decoded with
decode_config_asset) and no entry for any non-table top-level value; a
document with two empty tool tables decodes to two entries with every
override field absent. -/
theorem decode_config_tools_spec :
    (∀ es cfg, (es.map Prod.fst).Nodup → decode_config (Value.table es) = some cfg →
      cfg.tools.length = es.countP (fun kv => kv.2.isTable)
      ∧ (∀ k tb, (k, Value.table tb) ∈ es →
          lookupA cfg.tools k = some (decode_config_asset tb))
      ∧ (∀ k, k ∈ cfg.tools.map Prod.fst → ∃ tb, (k, Value.table tb) ∈ es))
    ∧ decode_config (Value.table [("store_directory", Value.str "pancake"),
        ("ripgrep", Value.table []), ("bat", Value.table [])])
      = some (Config.mk "pancake"
          [("bat", ConfigAsset.mk none none none (AssetName.mk none none none) none),
           ("ripgrep", ConfigAsset.mk none none none (AssetName.mk none none none) none)]) := by
  constructor
  · intro es cfg hnd hcfg
    rw [decode_config_table_eq] at hcfg
    cases h : lookupA es "store_directory" with
    | none => rw [h] at hcfg; simp at hcfg
    | some v =>
      rw [h] at hcfg
      cases v with
      | str s =>
        simp [Value.as_str] at hcfg
        subst hcfg
        refine ⟨?_, ?_, ?_⟩
        · simpa using length_foldl_insertTools es [] hnd (by simp)
        · intro k tb hmem
          exact foldl_insertTools_lookup_mem es [] k tb hnd hmem
        · intro k hk
          have h3 := (mem_keys_foldl_insertTools es [] k).mp hk
          simpa using h3
      | int n => simp [Value.as_str] at hcfg
      | boolean b => simp [Value.as_str] at hcfg
      | array xs => simp [Value.as_str] at hcfg
      | table t2 => simp [Value.as_str] at hcfg
  · decide

/-- Witness for C6 at a two-tool document. -/
theorem decode_config_tools_spec_witness :
    ((([("store_directory", Value.str "pancake"), ("ripgrep", Value.table []),
        ("bat", Value.table [])] : List (String × Value)).map Prod.fst).Nodup)
    ∧ decode_config (Value.table [("store_directory", Value.str "pancake"),
        ("ripgrep", Value.table []), ("bat", Value.table [])])
      = some (Config.mk "pancake"
          [("bat", ConfigAsset.mk none none none (AssetName.mk none none none) none),
           ("ripgrep", ConfigAsset.mk none none none (AssetName.mk none none none) none)])
    ∧ (Config.mk "pancake"
          [("bat", ConfigAsset.mk none none none (AssetName.mk none none none) none),
           ("ripgrep", ConfigAsset.mk none none none (AssetName.mk none none none) none)]).tools.length
        = ([("store_directory", Value.str "pancake"), ("ripgrep", Value.table []),
            ("bat", Value.table [])] : List (String × Value)).countP
            (fun kv => kv.2.isTable) :=
  ⟨by decide, by decide,
    (decode_config_tools_spec.1 _ _ (by decide) (by decide)).1⟩

/-- Witness for C4 at a one-key document. -/
theorem decode_config_store_directory_spec_witness :
    decode_config (Value.table [("store_directory", Value.str "pancake")])
        = some (Config.mk "pancake" [])
    ∧ ((Value.table [("store_directory", Value.str "pancake")]).get
          "store_directory").bind Value.as_str
        = some ((Config.mk "pancake" []).store_directory) :=
  ⟨by decide, decode_config_store_directory_spec.2.1 _ _ (by decide)⟩

/-- Helper: SyncProgress::new as a map over the tools maximum. -/
theorem sync_progress_new_eq (tools tags : List String) :
    SyncProgress.new tools tags
      = (listMaxNat (tools.map String.length)).map (fun mt =>
          SyncProgress.mk mt
            ((listMaxNat (tags.map (fun tag => Nat.max tag.length MIN_TAG_SIZE))).getD
              MIN_TAG_SIZE)) := by
  cases h : listMaxNat (tools.map String.length) with
  | none => simp [SyncProgress.new, h]
  | some mt => simp [SyncProgress.new, h]

/-- Claim C9: SyncProgress::new sizes the tool column as the maximum
tool-name length (an upper bound that is attained) and the tag column as
the maximum over tags of the tag length floored at 8 (an upper bound, at
least 8, and either 8 or attained by some tag); concretely the given tags
and tools produce widths 10 and 7, and all-latest tags floor at 8. -/
theorem sync_progress_new_spec :
    (∀ tools tags sp, SyncProgress.new tools tags = some sp →
      ((∀ t ∈ tools, t.length ≤ sp.max_tool_size)
        ∧ sp.max_tool_size ∈ tools.map String.length)
      ∧ ((∀ g ∈ tags, g.length ≤ sp.max_tag_size)
        ∧ MIN_TAG_SIZE ≤ sp.max_tag_size
        ∧ (sp.max_tag_size = MIN_TAG_SIZE
            ∨ sp.max_tag_size ∈ tags.map String.length)))
    ∧ SyncProgress.new ["ripgrep", "bat", "exa"] ["v10.10.100", "latest", "latest"]
        = some (SyncProgress.mk 7 10)
    ∧ SyncProgress.new ["ripgrep", "bat", "exa"] ["latest", "latest", "latest"]
        = some (SyncProgress.mk 7 8) := by
  refine ⟨?_, by decide, by decide⟩
  intro tools tags sp hsp
  rw [sync_progress_new_eq] at hsp
  cases hmt : listMaxNat (tools.map String.length) with
  | none => rw [hmt] at hsp; simp at hsp
  | some mt =>
    rw [hmt] at hsp
    simp at hsp
    subst hsp
    constructor
    · constructor
      · intro t ht
        exact (listMaxNat_spec _ _ hmt).1 t.length (List.mem_map_of_mem _ ht)
      · exact (listMaxNat_spec _ _ hmt).2
    · cases hmg : listMaxNat (tags.map (fun tag => Nat.max tag.length MIN_TAG_SIZE)) with
      | none =>
        cases tags with
        | nil =>
          refine ⟨?_, ?_, Or.inl ?_⟩
          · intro g hg
            cases hg
          · exact Nat.le_refl MIN_TAG_SIZE
          · rfl
        | cons g gs =>
          exfalso
          obtain ⟨m, hm, _, _, _⟩ := listMaxNat_cons (Nat.max g.length MIN_TAG_SIZE)
            (gs.map (fun tag => Nat.max tag.length MIN_TAG_SIZE))
          rw [List.map_cons, hm] at hmg
          cases hmg
      | some mg =>
        have hspec := listMaxNat_spec _ _ hmg
        have hgd : (listMaxNat (tags.map (fun tag =>
            Nat.max tag.length MIN_TAG_SIZE))).getD MIN_TAG_SIZE = mg := by
          rw [hmg]
          rfl
        simp only [hgd]
        refine ⟨?_, ?_, ?_⟩
        · intro g hg
          have h5 := hspec.1 (Nat.max g.length MIN_TAG_SIZE)
            (List.mem_map_of_mem _ hg)
          exact Nat.le_trans (Nat.le_max_left _ _) h5
        · obtain ⟨g, hg, hfg⟩ := List.mem_map.mp hspec.2
          show MIN_TAG_SIZE ≤ mg
          rw [← hfg]
          exact Nat.le_max_right _ _
        · obtain ⟨g, hg, hfg⟩ := List.mem_map.mp hspec.2
          rcases Nat.le_total g.length MIN_TAG_SIZE with hle | hle
          · left
            show mg = MIN_TAG_SIZE
            rw [← hfg]
            exact Nat.max_eq_right hle
          · right
            show mg ∈ tags.map String.length
            have hmgl : mg = g.length := by
              rw [← hfg]
              exact Nat.max_eq_left hle
            rw [hmgl]
            exact List.mem_map_of_mem _ hg

/-- Witness for C9 at the concrete tools and tags of the source tests. -/
theorem sync_progress_new_spec_witness :
    SyncProgress.new ["ripgrep", "bat", "exa"] ["v10.10.100", "latest", "latest"]
      = some (SyncProgress.mk 7 10)
    ∧ (SyncProgress.mk 7 10).max_tool_size
        ∈ (["ripgrep", "bat", "exa"].map String.length) :=
  ⟨by decide, (sync_progress_new_spec.1 ["ripgrep", "bat", "exa"]
    ["v10.10.100", "latest", "latest"] (SyncProgress.mk 7 10) (by decide)).1.2⟩

/-- Claim C10: SyncProgress::new unwraps the maximum of the tool lengths,
so an empty tools vector panics (modelled as none): a non-empty tools
vector is an unstated precondition; an empty tags vector does not panic
and yields the floor tag width 8. -/
theorem sync_progress_new_empty_tools :
    (∀ tags, SyncProgress.new [] tags = none)
    ∧ (∀ t ts, ∃ sp, SyncProgress.new (t :: ts) [] = some sp
        ∧ sp.max_tag_size = MIN_TAG_SIZE) := by
  constructor
  · intro tags
    rfl
  · intro t ts
    obtain ⟨m, hm, _, _, _⟩ := listMaxNat_cons t.length (ts.map String.length)
    refine ⟨SyncProgress.mk m MIN_TAG_SIZE, ?_, rfl⟩
    rw [sync_progress_new_eq, List.map_cons, hm]
    rfl

end ToolSync
